import Mathlib

/-!
Verification development for the rust_e2e repository: a shallow embedding of
the cryptographic identity and secure-message core (KeyPair, User, Friend,
message protocol) together with theorems settling the specification claims.

Embedding conventions:
* Rust strings are Lean `String`; byte buffers are `List Nat` with every
  element below 256; `str::as_bytes` is `utf8Encode` and
  `String::from_utf8` is `utf8DecodeStr`.
* Fallible Rust functions returning `Result` become `Except Err`.
* The OpenSSL RSA backend (an external library) is modelled concretely:
  textbook RSA with PKCS#1 v1.5 padding, with `RSA_public_encrypt`,
  `RSA_private_decrypt`, `RSA_private_encrypt` and `RSA_public_decrypt`
  mirrored including their length and padding checks.  Modular
  exponentiation is implemented by the square-and-multiply `powMod`
  (proved equal to `fun b e n => b ^ e % n` below) so that concrete
  instances evaluate inside the kernel.
* Key generation draws its randomness externally, so the embedded
  `kpGenerate` takes the generated key material as an argument; likewise
  `encrypt` takes the random PKCS#1 padding bytes as an argument.
* The SHA-256 digest of the external sha256 crate is a parameter
  `digest : String → String` of the signing and verifying operations; all
  theorems below hold for every digest function.
-/

/-- Error taxonomy of the program.  The client module reports errors as
anyhow strings; the sibling top-level module uses typed enums
(KeyPairError, UserError, FriendError) with the same classification, which
these constructors mirror. -/
inductive Err where
  | modeError (msg : String)
  | opensslError (msg : String)
  | base64Error (msg : String)
  | utf8Error
  | verifyError
  | noKeyError (msg : String)
  | jsonError (msg : String)
  | invalidShare (msg : String)
  | duplicateFriend (msg : String)
  | noSuchFriend (msg : String)
  | unknownMessage (msg : String)
  | panicUnwrap
  deriving DecidableEq, Repr

instance {ε α : Type} [DecidableEq ε] [DecidableEq α] : DecidableEq (Except ε α) :=
  fun a b =>
  match a, b with
  | .ok x, .ok y =>
    if h : x = y then .isTrue (h ▸ rfl) else .isFalse (fun hc => h (Except.ok.inj hc))
  | .error x, .error y =>
    if h : x = y then .isTrue (h ▸ rfl)
    else .isFalse (fun hc => h (Except.error.inj hc))
  | .ok _, .error _ => .isFalse (fun hc => Except.noConfusion hc)
  | .error _, .ok _ => .isFalse (fun hc => Except.noConfusion hc)

/-- Mode enum of crypto.rs. -/
inductive Mode where
  | encrypt
  | encryptDecrypt
  | verify
  | verifySign
  deriving DecidableEq, Repr

/-- Public RSA key material: modulus and public exponent. -/
structure RsaPub where
  n : Nat
  e : Nat
  deriving DecidableEq, Repr

/-- Private RSA key material: modulus, public and private exponents. -/
structure RsaPriv where
  n : Nat
  e : Nat
  d : Nat
  deriving DecidableEq, Repr

/-- KeyPair of crypto.rs: optional public key, optional private key, mode.
The Rust field named private is called priv here because private is a
reserved word in Lean. -/
structure KeyPair where
  pub : Option RsaPub
  priv : Option RsaPriv
  mode : Mode
  deriving DecidableEq, Repr

/-- Square-and-multiply modular exponentiation, fuel-structured so that the
kernel can evaluate it on concrete inputs.  The fuel bounds the recursion
depth; powMod supplies fuel e + 1 which always suffices. -/
def powModAux (fuel : Nat) (b e n : Nat) : Nat :=
  match fuel with
  | 0 => 1 % n
  | fuel + 1 =>
    if e = 0 then 1 % n
    else
      let h := powModAux fuel b (e / 2) n
      if e % 2 = 0 then h * h % n else h * h % n * b % n

/-- Modular exponentiation b ^ e % n, the primitive of all RSA operations. -/
def powMod (b e n : Nat) : Nat :=
  powModAux (e + 1) b e n

theorem powModAux_eq (fuel b e n : Nat) (h : e < 2 ^ fuel) :
    powModAux fuel b e n = b ^ e % n := by
  induction fuel generalizing e with
  | zero =>
    have he : e = 0 := by simpa using h
    simp [powModAux, he]
  | succ fuel ih =>
    rw [powModAux]
    by_cases he : e = 0
    · simp [he]
    · have hlt : e / 2 < 2 ^ fuel := by
        have h2 : (0 : Nat) < 2 ^ fuel := Nat.pos_pow_of_pos fuel (by norm_num)
        have : e < 2 ^ fuel * 2 := by
          have : 2 ^ (fuel + 1) = 2 ^ fuel * 2 := by ring
          omega
        exact Nat.div_lt_iff_lt_mul (by norm_num) |>.mpr this
      rw [if_neg he, ih (e / 2) hlt]
      by_cases hpar : e % 2 = 0
      · have hsum : e / 2 + e / 2 = e := by omega
        rw [if_pos hpar, ← Nat.mul_mod, ← pow_add, hsum]
      · have hsum : e / 2 + e / 2 + 1 = e := by omega
        rw [if_neg hpar, ← Nat.mul_mod, ← pow_add, Nat.mod_mul_mod, ← pow_succ, hsum]

theorem powMod_eq (b e n : Nat) : powMod b e n = b ^ e % n := by
  have h : e < 2 ^ (e + 1) :=
    lt_of_lt_of_le (Nat.lt_two_pow e) (Nat.pow_le_pow_right (by norm_num) (by omega))
  exact powModAux_eq (e + 1) b e n h

/-- Fuel-structured byte length of a natural number (number of base-256
digits); mirrors RSA_size, the modulus size in bytes. -/
def byteLenAux (fuel n : Nat) : Nat :=
  match fuel with
  | 0 => 0
  | fuel + 1 => if n = 0 then 0 else byteLenAux fuel (n / 256) + 1

/-- Byte length of a natural number; byteLen n = 0 iff n = 0. -/
def byteLen (n : Nat) : Nat := byteLenAux n n

/-- RSA_size of a key: the byte length of the modulus. -/
def rsaSize (k : RsaPub) : Nat := byteLen k.n

theorem byteLenAux_zero (fuel : Nat) : byteLenAux fuel 0 = 0 := by
  cases fuel <;> simp [byteLenAux]

theorem byteLenAux_bounds (fuel : Nat) :
    ∀ n, 0 < n → n ≤ fuel →
      256 ^ (byteLenAux fuel n - 1) ≤ n ∧ n < 256 ^ byteLenAux fuel n := by
  induction fuel with
  | zero => intro n h h2; omega
  | succ fuel ih =>
    intro n hpos hle
    rw [byteLenAux, if_neg (by omega)]
    by_cases hsmall : n / 256 = 0
    · have : n < 256 := by omega
      simp [hsmall, byteLenAux_zero]
      omega
    · have hdlt : n / 256 < n := Nat.div_lt_self hpos (by norm_num)
      have ⟨hlo, hhi⟩ := ih (n / 256) (by omega) (by omega)
      have hL : 1 ≤ byteLenAux fuel (n / 256) := by
        by_contra h
        have : byteLenAux fuel (n / 256) = 0 := by omega
        rw [this] at hhi
        omega
      constructor
      · have h1 : 256 ^ (byteLenAux fuel (n / 256) + 1 - 1)
            = 256 ^ (byteLenAux fuel (n / 256) - 1) * 256 := by
          rw [Nat.add_sub_cancel, ← pow_succ]
          congr 1
          omega
        rw [h1]
        calc 256 ^ (byteLenAux fuel (n / 256) - 1) * 256 ≤ n / 256 * 256 :=
              Nat.mul_le_mul_right 256 hlo
          _ ≤ n := Nat.div_mul_le_self n 256
      · have h2 : 256 ^ (byteLenAux fuel (n / 256) + 1)
            = 256 ^ byteLenAux fuel (n / 256) * 256 := by rw [pow_succ]
        rw [h2]
        have : n < (n / 256 + 1) * 256 := by omega
        calc n < (n / 256 + 1) * 256 := this
          _ ≤ 256 ^ byteLenAux fuel (n / 256) * 256 := by
              apply Nat.mul_le_mul_right
              omega

theorem byteLen_bounds (n : Nat) (h : 0 < n) :
    256 ^ (byteLen n - 1) ≤ n ∧ n < 256 ^ byteLen n :=
  byteLenAux_bounds n n h (le_refl n)

/-- Big-endian conversion of a natural number to k bytes (I2OSP). -/
def i2osp : Nat → Nat → List Nat
  | 0, _ => []
  | k + 1, x => i2osp k (x / 256) ++ [x % 256]

/-- Big-endian conversion of a byte list to a natural number (OS2IP). -/
def os2ip (l : List Nat) : Nat := l.foldl (fun a b => a * 256 + b) 0

theorem i2osp_length (k x : Nat) : (i2osp k x).length = k := by
  induction k generalizing x with
  | zero => rfl
  | succ k ih => simp [i2osp, ih]

theorem i2osp_bytes_lt (k x : Nat) : ∀ b ∈ i2osp k x, b < 256 := by
  induction k generalizing x with
  | zero => intro b hb; simp [i2osp] at hb
  | succ k ih =>
    intro b hb
    simp only [i2osp, List.mem_append, List.mem_singleton] at hb
    rcases hb with h | h
    · exact ih (x / 256) b h
    · omega

theorem os2ip_nil : os2ip [] = 0 := rfl

theorem os2ip_foldl_shift (l : List Nat) :
    ∀ a : Nat, l.foldl (fun a b => a * 256 + b) a = a * 256 ^ l.length + os2ip l := by
  induction l with
  | nil => intro a; simp [os2ip]
  | cons b l ih =>
    intro a
    show l.foldl _ (a * 256 + b) = a * 256 ^ (b :: l).length + os2ip (b :: l)
    rw [ih (a * 256 + b)]
    have hb : os2ip (b :: l) = b * 256 ^ l.length + os2ip l := by
      show l.foldl _ (0 * 256 + b) = _
      rw [show 0 * 256 + b = b by ring, ih b]
    rw [hb, List.length_cons]
    ring

theorem os2ip_append (l1 l2 : List Nat) :
    os2ip (l1 ++ l2) = os2ip l1 * 256 ^ l2.length + os2ip l2 := by
  show (l1 ++ l2).foldl _ 0 = _
  rw [List.foldl_append, os2ip_foldl_shift]
  rfl

theorem os2ip_cons_zero (l : List Nat) : os2ip (0 :: l) = os2ip l := by
  show l.foldl _ (0 * 256 + 0) = l.foldl _ 0
  norm_num

theorem os2ip_i2osp (k x : Nat) : os2ip (i2osp k x) = x % 256 ^ k := by
  induction k generalizing x with
  | zero => simp [i2osp, os2ip, Nat.mod_one]
  | succ k ih =>
    rw [i2osp, os2ip_append, ih]
    have h1 : os2ip [x % 256] = x % 256 := by simp [os2ip]
    have h2 : ([x % 256] : List Nat).length = 1 := rfl
    rw [h1, h2, pow_one]
    have h3 : (256 : Nat) ^ (k + 1) = 256 * 256 ^ k := by ring
    rw [h3, Nat.mod_mul]
    ring

theorem os2ip_lt (l : List Nat) (h : ∀ b ∈ l, b < 256) :
    os2ip l < 256 ^ l.length := by
  induction l using List.reverseRecOn with
  | nil => simp [os2ip]
  | append_singleton l b ih =>
    rw [os2ip_append]
    have hb : b < 256 := h b (by simp)
    have hl : os2ip l < 256 ^ l.length := ih (fun c hc => h c (by simp [hc]))
    have h1 : os2ip [b] = b := by simp [os2ip]
    simp only [h1, List.length_append, List.length_singleton, pow_one]
    have : os2ip l * 256 + b < 256 ^ l.length * 256 := by nlinarith
    calc os2ip l * 256 ^ ([b] : List Nat).length + b
        = os2ip l * 256 + b := by norm_num
      _ < 256 ^ l.length * 256 := this
      _ = 256 ^ (l.length + 1) := by rw [pow_succ]

theorem i2osp_os2ip (l : List Nat) (h : ∀ b ∈ l, b < 256) :
    i2osp l.length (os2ip l) = l := by
  induction l using List.reverseRecOn with
  | nil => rfl
  | append_singleton l b ih =>
    have hb : b < 256 := h b (by simp)
    have hrec := ih (fun c hc => h c (by simp [hc]))
    rw [os2ip_append]
    have h1 : os2ip [b] = b := by simp [os2ip]
    simp only [h1, List.length_append, List.length_singleton, pow_one]
    rw [i2osp]
    have hdiv : (os2ip l * 256 + b) / 256 = os2ip l := by omega
    have hmod : (os2ip l * 256 + b) % 256 = b := by omega
    rw [hdiv, hmod, hrec]

/-- The standard base64 alphabet. -/
def b64alphabet : List Char :=
  ['A', 'B', 'C', 'D', 'E', 'F', 'G', 'H', 'I', 'J', 'K', 'L', 'M',
   'N', 'O', 'P', 'Q', 'R', 'S', 'T', 'U', 'V', 'W', 'X', 'Y', 'Z',
   'a', 'b', 'c', 'd', 'e', 'f', 'g', 'h', 'i', 'j', 'k', 'l', 'm',
   'n', 'o', 'p', 'q', 'r', 's', 't', 'u', 'v', 'w', 'x', 'y', 'z',
   '0', '1', '2', '3', '4', '5', '6', '7', '8', '9', '+', '/']

/-- Character for a 6-bit value. -/
def b64char (v : Nat) : Char := b64alphabet.getD v 'A'

/-- Index of a character in the base64 alphabet, none for a foreign char. -/
def b64inv (c : Char) : Option Nat := b64alphabet.findIdx? (fun x => x = c)

/-- Unpadded base64 encoding of a byte list (STANDARD_NO_PAD). -/
def b64encodeBytes : List Nat → List Char
  | [] => []
  | [b0] => [b64char (b0 / 4), b64char (b0 % 4 * 16)]
  | [b0, b1] =>
      [b64char (b0 / 4), b64char (b0 % 4 * 16 + b1 / 16), b64char (b1 % 16 * 4)]
  | b0 :: b1 :: b2 :: rest =>
      b64char (b0 / 4) :: b64char (b0 % 4 * 16 + b1 / 16) ::
      b64char (b1 % 16 * 4 + b2 / 64) :: b64char (b2 % 64) :: b64encodeBytes rest

/-- STANDARD_NO_PAD.encode as used throughout the source. -/
def b64encodeStr (l : List Nat) : String := String.mk (b64encodeBytes l)

/-- Unpadded base64 decoding (STANDARD_NO_PAD.decode): rejects foreign
characters, a remainder of one character, and nonzero trailing bits. -/
def b64decodeChars : List Char → Except Err (List Nat)
  | [] => .ok []
  | [_] => .error (.base64Error "invalid length")
  | [c0, c1] =>
    match b64inv c0, b64inv c1 with
    | some v0, some v1 =>
        if v1 % 16 = 0 then .ok [v0 * 4 + v1 / 16]
        else .error (.base64Error "invalid trailing bits")
    | _, _ => .error (.base64Error "invalid byte")
  | [c0, c1, c2] =>
    match b64inv c0, b64inv c1, b64inv c2 with
    | some v0, some v1, some v2 =>
        if v2 % 4 = 0 then .ok [v0 * 4 + v1 / 16, v1 % 16 * 16 + v2 / 4]
        else .error (.base64Error "invalid trailing bits")
    | _, _, _ => .error (.base64Error "invalid byte")
  | c0 :: c1 :: c2 :: c3 :: rest =>
    match b64inv c0, b64inv c1, b64inv c2, b64inv c3 with
    | some v0, some v1, some v2, some v3 =>
      match b64decodeChars rest with
      | .ok bs =>
          .ok ((v0 * 4 + v1 / 16) :: (v1 % 16 * 16 + v2 / 4) :: (v2 % 4 * 64 + v3) :: bs)
      | .error e => .error e
    | _, _, _, _ => .error (.base64Error "invalid byte")

/-- STANDARD_NO_PAD.decode on a string. -/
def b64decodeStr (s : String) : Except Err (List Nat) := b64decodeChars s.data

theorem b64inv_b64char : ∀ v : Nat, v < 64 → b64inv (b64char v) = some v := by
  decide

theorem b64decode_encode (l : List Nat) (h : ∀ b ∈ l, b < 256) :
    b64decodeChars (b64encodeBytes l) = .ok l := by
  induction l using b64encodeBytes.induct with
  | case1 => rfl
  | case2 b0 =>
    have hb0 : b0 < 256 := h b0 (by simp)
    rw [b64encodeBytes, b64decodeChars,
      b64inv_b64char (b0 / 4) (by omega),
      b64inv_b64char (b0 % 4 * 16) (by omega)]
    have hbit : b0 % 4 * 16 % 16 = 0 := by omega
    simp [hbit]
    omega
  | case3 b0 b1 =>
    have hb0 : b0 < 256 := h b0 (by simp)
    have hb1 : b1 < 256 := h b1 (by simp)
    rw [b64encodeBytes, b64decodeChars,
      b64inv_b64char (b0 / 4) (by omega),
      b64inv_b64char (b0 % 4 * 16 + b1 / 16) (by omega),
      b64inv_b64char (b1 % 16 * 4) (by omega)]
    have hbit : b1 % 16 * 4 % 4 = 0 := by omega
    simp [hbit]
    constructor <;> omega
  | case4 b0 b1 b2 rest ih =>
    have hb0 : b0 < 256 := h b0 (by simp)
    have hb1 : b1 < 256 := h b1 (by simp)
    have hb2 : b2 < 256 := h b2 (by simp)
    have hrest : ∀ b ∈ rest, b < 256 := fun b hb => h b (by simp [hb])
    rw [b64encodeBytes, b64decodeChars,
      b64inv_b64char (b0 / 4) (by omega),
      b64inv_b64char (b0 % 4 * 16 + b1 / 16) (by omega),
      b64inv_b64char (b1 % 16 * 4 + b2 / 64) (by omega),
      b64inv_b64char (b2 % 64) (by omega),
      ih hrest]
    simp
    refine ⟨?_, ?_, ?_⟩ <;> omega

theorem b64decodeStr_encodeStr (l : List Nat) (h : ∀ b ∈ l, b < 256) :
    b64decodeStr (b64encodeStr l) = .ok l := by
  show b64decodeChars (String.mk (b64encodeBytes l)).data = _
  rw [show (String.mk (b64encodeBytes l)).data = b64encodeBytes l from rfl]
  exact b64decode_encode l h

/-- Padded base64 encoding, as used in the body of a PEM block. -/
def b64encodePadBytes (l : List Nat) : List Char :=
  b64encodeBytes l ++
    (match l.length % 3 with
     | 1 => ['=', '=']
     | 2 => ['=']
     | _ => [])

/-- Padded base64 decoding: strip trailing padding then decode. -/
def b64decodePadChars (l : List Char) : Except Err (List Nat) :=
  b64decodeChars ((l.reverse.dropWhile (fun c => c = '=')).reverse)

/-- UTF-8 encoding of a single scalar value, as Rust String stores text. -/
def utf8EncodeChar (c : Char) : List Nat :=
  let v := c.toNat
  if v < 128 then [v]
  else if v < 2048 then [192 + v / 64, 128 + v % 64]
  else if v < 65536 then [224 + v / 4096, 128 + v / 64 % 64, 128 + v % 64]
  else [240 + v / 262144, 128 + v / 4096 % 64, 128 + v / 64 % 64, 128 + v % 64]

/-- UTF-8 encoding of a character list. -/
def utf8EncodeList : List Char → List Nat
  | [] => []
  | c :: cs => utf8EncodeChar c ++ utf8EncodeList cs

/-- Bytes of a Rust string (str::as_bytes). -/
def utf8Encode (s : String) : List Nat := utf8EncodeList s.data

/-- Fuel-structured UTF-8 decoder implementing the validation of
String::from_utf8: continuation bytes must lie in 128..191, overlong
forms, surrogates and values above 0x10FFFF are rejected.  The fuel is
decremented once per decoded character, so fuel = length of the input
always suffices. -/
def utf8DecodeAux : Nat → List Nat → Option (List Char)
  | _, [] => some []
  | 0, _ :: _ => none
  | fuel + 1, b0 :: rest =>
    if b0 < 128 then
      (utf8DecodeAux fuel rest).map (fun cs => Char.ofNat b0 :: cs)
    else if b0 < 194 then none
    else if b0 < 224 then
      let b1 := rest.headD 256
      if 1 ≤ rest.length ∧ 128 ≤ b1 ∧ b1 < 192 then
        (utf8DecodeAux fuel rest.tail).map
          (fun cs => Char.ofNat ((b0 - 192) * 64 + (b1 - 128)) :: cs)
      else none
    else if b0 < 240 then
      let b1 := rest.headD 256
      let b2 := rest.tail.headD 256
      let v := (b0 - 224) * 4096 + (b1 - 128) * 64 + (b2 - 128)
      if 2 ≤ rest.length ∧ 128 ≤ b1 ∧ b1 < 192 ∧ 128 ≤ b2 ∧ b2 < 192 ∧
          2048 ≤ v ∧ ¬(55296 ≤ v ∧ v < 57344) then
        (utf8DecodeAux fuel rest.tail.tail).map (fun cs => Char.ofNat v :: cs)
      else none
    else if b0 < 245 then
      let b1 := rest.headD 256
      let b2 := rest.tail.headD 256
      let b3 := rest.tail.tail.headD 256
      let v := (b0 - 240) * 262144 + (b1 - 128) * 4096 + (b2 - 128) * 64 + (b3 - 128)
      if 3 ≤ rest.length ∧ 128 ≤ b1 ∧ b1 < 192 ∧ 128 ≤ b2 ∧ b2 < 192 ∧
          128 ≤ b3 ∧ b3 < 192 ∧ 65536 ≤ v ∧ v < 1114112 then
        (utf8DecodeAux fuel rest.tail.tail.tail).map (fun cs => Char.ofNat v :: cs)
      else none
    else none

/-- String::from_utf8 of a byte buffer. -/
def utf8DecodeStr (l : List Nat) : Option String :=
  match utf8DecodeAux l.length l with
  | some cs => some (String.mk cs)
  | none => none

theorem utf8DecodeAux_nil (fuel : Nat) : utf8DecodeAux fuel [] = some [] := by
  cases fuel <;> rfl

theorem utf8DecodeAux_encodeChar (c : Char) (f : Nat) (rest : List Nat) (cs : List Char)
    (ih : utf8DecodeAux f rest = some cs) :
    utf8DecodeAux (f + 1) (utf8EncodeChar c ++ rest) = some (c :: cs) := by
  have hval : c.toNat < 55296 ∨ (57343 < c.toNat ∧ c.toNat < 1114112) := c.valid
  by_cases h1 : c.toNat < 128
  · have henc : utf8EncodeChar c = [c.toNat] := by simp [utf8EncodeChar, h1]
    rw [henc]
    show utf8DecodeAux (f + 1) (c.toNat :: rest) = _
    rw [utf8DecodeAux, if_pos h1, ih]
    simp only [Option.map_some']
    rw [Char.ofNat_toNat]
  · by_cases h2 : c.toNat < 2048
    · have henc : utf8EncodeChar c = [192 + c.toNat / 64, 128 + c.toNat % 64] := by
        simp [utf8EncodeChar, h1, h2]
      rw [henc]
      show utf8DecodeAux (f + 1)
        ((192 + c.toNat / 64) :: (128 + c.toNat % 64) :: rest) = _
      rw [utf8DecodeAux]
      rw [if_neg (by omega)]
      rw [if_neg (by omega)]
      rw [if_pos (by omega)]
      simp only [List.headD_cons, List.tail_cons, List.length_cons]
      rw [if_pos (by omega), ih]
      simp only [Option.map_some']
      have hv : (192 + c.toNat / 64 - 192) * 64 + (128 + c.toNat % 64 - 128)
          = c.toNat := by omega
      rw [hv, Char.ofNat_toNat]
    · by_cases h3 : c.toNat < 65536
      · have henc : utf8EncodeChar c =
            [224 + c.toNat / 4096, 128 + c.toNat / 64 % 64, 128 + c.toNat % 64] := by
          simp [utf8EncodeChar, h1, h2, h3]
        rw [henc]
        show utf8DecodeAux (f + 1) ((224 + c.toNat / 4096) ::
          (128 + c.toNat / 64 % 64) :: (128 + c.toNat % 64) :: rest) = _
        rw [utf8DecodeAux]
        rw [if_neg (by omega)]
        rw [if_neg (by omega)]
        rw [if_neg (by omega)]
        rw [if_pos (by omega)]
        simp only [List.headD_cons, List.tail_cons, List.length_cons]
        rw [if_pos (by omega), ih]
        simp only [Option.map_some']
        have hv : (224 + c.toNat / 4096 - 224) * 4096 +
            (128 + c.toNat / 64 % 64 - 128) * 64 + (128 + c.toNat % 64 - 128)
            = c.toNat := by omega
        rw [hv, Char.ofNat_toNat]
      · have h4 : c.toNat < 1114112 := by omega
        have henc : utf8EncodeChar c =
            [240 + c.toNat / 262144, 128 + c.toNat / 4096 % 64,
             128 + c.toNat / 64 % 64, 128 + c.toNat % 64] := by
          simp [utf8EncodeChar, h1, h2, h3]
        rw [henc]
        show utf8DecodeAux (f + 1) ((240 + c.toNat / 262144) ::
          (128 + c.toNat / 4096 % 64) :: (128 + c.toNat / 64 % 64) ::
          (128 + c.toNat % 64) :: rest) = _
        rw [utf8DecodeAux]
        rw [if_neg (by omega)]
        rw [if_neg (by omega)]
        rw [if_neg (by omega)]
        rw [if_neg (by omega)]
        rw [if_pos (by omega)]
        simp only [List.headD_cons, List.tail_cons, List.length_cons]
        rw [if_pos (by omega), ih]
        simp only [Option.map_some']
        have hv : (240 + c.toNat / 262144 - 240) * 262144 +
            (128 + c.toNat / 4096 % 64 - 128) * 4096 +
            (128 + c.toNat / 64 % 64 - 128) * 64 + (128 + c.toNat % 64 - 128)
            = c.toNat := by omega
        rw [hv, Char.ofNat_toNat]

theorem utf8DecodeAux_encodeList (cs : List Char) :
    ∀ fuel : Nat, cs.length ≤ fuel →
      utf8DecodeAux fuel (utf8EncodeList cs) = some cs := by
  induction cs with
  | nil => intro fuel h; exact utf8DecodeAux_nil fuel
  | cons c cs ih =>
    intro fuel h
    obtain ⟨f, rfl⟩ : ∃ f, fuel = f + 1 := by
      cases fuel
      · simp at h
      · exact ⟨_, rfl⟩
    rw [utf8EncodeList]
    exact utf8DecodeAux_encodeChar c f (utf8EncodeList cs) cs (ih f (by simpa using h))

theorem utf8EncodeChar_length_pos (c : Char) : 1 ≤ (utf8EncodeChar c).length := by
  rw [utf8EncodeChar]
  split_ifs <;> simp

theorem utf8EncodeList_length_ge (cs : List Char) :
    cs.length ≤ (utf8EncodeList cs).length := by
  induction cs with
  | nil => simp [utf8EncodeList]
  | cons c cs ih =>
    rw [utf8EncodeList]
    simp only [List.length_append, List.length_cons]
    have := utf8EncodeChar_length_pos c
    omega

theorem utf8DecodeStr_encode (s : String) : utf8DecodeStr (utf8Encode s) = some s := by
  rw [utf8DecodeStr, utf8Encode,
    utf8DecodeAux_encodeList s.data (utf8EncodeList s.data).length
      (utf8EncodeList_length_ge s.data)]

/-- The Unicode White_Space property, the set used by str::trim in Rust. -/
def rustIsWhitespace (c : Char) : Bool :=
  decide ((9 ≤ c.toNat ∧ c.toNat ≤ 13) ∨ c.toNat = 32 ∨ c.toNat = 133 ∨
    c.toNat = 160 ∨ c.toNat = 5760 ∨ (8192 ≤ c.toNat ∧ c.toNat ≤ 8202) ∨
    c.toNat = 8232 ∨ c.toNat = 8233 ∨ c.toNat = 8239 ∨ c.toNat = 8287 ∨
    c.toNat = 12288)

/-- str::trim: strip White_Space characters from both ends. -/
def rustTrim (s : String) : String :=
  String.mk
    (((s.data.dropWhile rustIsWhitespace).reverse.dropWhile rustIsWhitespace).reverse)

/-- Index of the first nonzero byte in a list, if any. -/
def firstNonzeroIdx : List Nat → Option Nat
  | [] => none
  | b :: rest => if b ≠ 0 then some 0 else (firstNonzeroIdx rest).map (· + 1)

/-- The zero-stripping loop of KeyPair::decrypt: index, from the back, of
the first nonzero byte (0 when the buffer holds no nonzero byte at all,
exactly as the Rust loop leaves trailing_index untouched then). -/
def trailingIndex (buf : List Nat) : Nat :=
  match firstNonzeroIdx buf.reverse with
  | some i => i
  | none => 0

/-- buf.truncate(buf.len() - trailing_index) from KeyPair::decrypt. -/
def stripTrailingZeros (buf : List Nat) : List Nat :=
  buf.take (buf.length - trailingIndex buf)

theorem firstNonzeroIdx_replicate_zero_append (z : Nat) (l : List Nat) :
    firstNonzeroIdx (List.replicate z 0 ++ l)
      = (firstNonzeroIdx l).map (fun i => z + i) := by
  induction z with
  | zero =>
    simp only [List.replicate, List.nil_append]
    cases firstNonzeroIdx l <;> simp
  | succ z ih =>
    rw [List.replicate_succ, List.cons_append, firstNonzeroIdx]
    rw [if_neg (by omega), ih]
    cases firstNonzeroIdx l <;> simp <;> omega

theorem stripTrailingZeros_append (m : List Nat) (z : Nat)
    (hm : m ≠ []) (hlast : m.getLast hm ≠ 0) :
    stripTrailingZeros (m ++ List.replicate z 0) = m := by
  rw [stripTrailingZeros, trailingIndex]
  rw [List.reverse_append, List.reverse_replicate]
  rw [firstNonzeroIdx_replicate_zero_append]
  have hrev : m.reverse = m.getLast hm :: (m.dropLast).reverse := by
    conv_lhs => rw [← List.dropLast_append_getLast hm]
    rw [List.reverse_append]
    simp
  rw [hrev, firstNonzeroIdx, if_pos hlast]
  simp only [Option.map_some']
  have hlen : (m ++ List.replicate z 0).length = m.length + z := by simp
  rw [hlen]
  have hz : m.length + z - (z + 0) = m.length := by omega
  rw [hz, List.take_append_of_le_length (by omega), List.take_length]

/-- Index of the first byte equal to v. -/
def firstEqIdx (v : Nat) : List Nat → Option Nat
  | [] => none
  | b :: rest => if b = v then some 0 else (firstEqIdx v rest).map (fun i => i + 1)

/-- Index of the first byte different from v. -/
def firstNeIdx (v : Nat) : List Nat → Option Nat
  | [] => none
  | b :: rest => if b ≠ v then some 0 else (firstNeIdx v rest).map (fun i => i + 1)

/-- PKCS#1 v1.5 block type 2 unpadding, as RSA_private_decrypt checks it:
leading 0x00 0x02, at least eight nonzero padding bytes, a 0x00 delimiter,
then the message. -/
def pkcs1Type2Unpad (em : List Nat) : Except Err (List Nat) :=
  match em with
  | 0 :: 2 :: rest =>
    match firstEqIdx 0 rest with
    | none => .error (.opensslError "null before block type")
    | some j =>
      if j < 8 then .error (.opensslError "bad pad byte count")
      else .ok (rest.drop (j + 1))
  | _ => .error (.opensslError "block type is not 02")

/-- PKCS#1 v1.5 block type 1 unpadding, as RSA_public_decrypt checks it:
leading 0x00 0x01, at least eight 0xFF padding bytes, a 0x00 delimiter,
then the message. -/
def pkcs1Type1Unpad (em : List Nat) : Except Err (List Nat) :=
  match em with
  | 0 :: 1 :: rest =>
    match firstNeIdx 255 rest with
    | none => .error (.opensslError "null before block type")
    | some j =>
      if rest.getD j 1 ≠ 0 then .error (.opensslError "bad fixed header")
      else if j < 8 then .error (.opensslError "bad pad byte count")
      else .ok (rest.drop (j + 1))
  | _ => .error (.opensslError "block type is not 01")

/-- RSA_public_encrypt with PKCS#1 v1.5 type 2 padding.  OpenSSL draws the
nonzero padding bytes from its RNG; the embedding receives them as the
argument ps and checks the properties the RNG guarantees. -/
def rsaPublicEncrypt (key : RsaPub) (ps : List Nat) (msg : List Nat) :
    Except Err (List Nat) :=
  let k := rsaSize key
  if msg.length + 11 > k then .error (.opensslError "data too large for key size")
  else if ps.length = k - 3 - msg.length ∧ (∀ b ∈ ps, 0 < b ∧ b < 256) then
    let em := 0 :: 2 :: (ps ++ 0 :: msg)
    .ok (i2osp k (powMod (os2ip em) key.e key.n))
  else .error (.opensslError "invalid padding bytes")

/-- RSA_private_decrypt with PKCS#1 v1.5 type 2 unpadding. -/
def rsaPrivateDecrypt (key : RsaPriv) (input : List Nat) : Except Err (List Nat) :=
  let k := byteLen key.n
  if input.length > k then .error (.opensslError "data greater than mod len")
  else
    let m := os2ip input
    if key.n ≤ m then .error (.opensslError "data too large for modulus")
    else pkcs1Type2Unpad (i2osp k (powMod m key.d key.n))

/-- RSA_private_encrypt with the deterministic PKCS#1 v1.5 type 1 padding
(0xFF filler), the raw signing primitive. -/
def rsaPrivateEncrypt (key : RsaPriv) (msg : List Nat) : Except Err (List Nat) :=
  let k := byteLen key.n
  if msg.length + 11 > k then .error (.opensslError "data too large for key size")
  else
    let em := 0 :: 1 :: (List.replicate (k - 3 - msg.length) 255 ++ 0 :: msg)
    .ok (i2osp k (powMod (os2ip em) key.d key.n))

/-- RSA_public_decrypt with PKCS#1 v1.5 type 1 unpadding, the raw
signature-recovery primitive. -/
def rsaPublicDecrypt (key : RsaPub) (input : List Nat) : Except Err (List Nat) :=
  let k := rsaSize key
  if input.length > k then .error (.opensslError "data greater than mod len")
  else
    let m := os2ip input
    if key.n ≤ m then .error (.opensslError "data too large for modulus")
    else pkcs1Type1Unpad (i2osp k (powMod m key.e key.n))

/-- KeyPair::can_encrypt of client/crypto.rs.  The .unwrap() on a missing
key aborts the Rust process; that is modelled as the distinguished
panicUnwrap error. -/
def canEncrypt (kp : KeyPair) : Except Err RsaPub :=
  match kp.mode with
  | .encrypt | .encryptDecrypt =>
    match kp.pub with
    | some key => .ok key
    | none => .error .panicUnwrap
  | _ => .error (.modeError "cannot use non encryption key for encrypt")

/-- KeyPair::can_decrypt of client/crypto.rs. -/
def canDecrypt (kp : KeyPair) : Except Err RsaPriv :=
  match kp.mode with
  | .encryptDecrypt =>
    match kp.priv with
    | some key => .ok key
    | none => .error .panicUnwrap
  | _ => .error (.modeError "cannot decrypt with non decrypt mode key")

/-- KeyPair::can_sign of client/crypto.rs. -/
def canSign (kp : KeyPair) : Except Err RsaPriv :=
  match kp.mode with
  | .verifySign =>
    match kp.priv with
    | some key => .ok key
    | none => .error .panicUnwrap
  | _ => .error (.modeError "cannot sign with non signing mode key")

/-- KeyPair::can_verify of client/crypto.rs. -/
def canVerify (kp : KeyPair) : Except Err RsaPub :=
  match kp.mode with
  | .verifySign | .verify =>
    match kp.pub with
    | some key => .ok key
    | none => .error .panicUnwrap
  | _ => .error (.modeError "cannot verify with non verify mode key")

/-- KeyPair::encrypt of client/crypto.rs. -/
def kpEncrypt (kp : KeyPair) (ps : List Nat) (msg : String) : Except Err String :=
  match canEncrypt kp with
  | .error e => .error e
  | .ok key =>
    match rsaPublicEncrypt key ps (utf8Encode msg) with
    | .error e => .error e
    | .ok buf => .ok (b64encodeStr buf)

/-- KeyPair::decrypt of client/crypto.rs: base64 decode, RSA decrypt into a
key-size buffer of zeros whose written length is ignored, strip trailing
zero bytes, decode UTF-8 and trim surrounding whitespace. -/
def kpDecrypt (kp : KeyPair) (s : String) : Except Err String :=
  match canDecrypt kp with
  | .error e => .error e
  | .ok key =>
    match b64decodeStr s with
    | .error e => .error e
    | .ok enc =>
      match rsaPrivateDecrypt key enc with
      | .error e => .error e
      | .ok msgBytes =>
        let buf := msgBytes ++ List.replicate (byteLen key.n - msgBytes.length) 0
        match utf8DecodeStr (stripTrailingZeros buf) with
        | none => .error .utf8Error
        | some str => .ok (rustTrim str)

/-- KeyPair::sign of client/crypto.rs: hash, then RSA private encrypt, then
base64 encode. -/
def kpSign (digest : String → String) (kp : KeyPair) (msg : String) :
    Except Err String :=
  match canSign kp with
  | .error e => .error e
  | .ok key =>
    match rsaPrivateEncrypt key (utf8Encode (digest msg)) with
    | .error e => .error e
    | .ok buf => .ok (b64encodeStr buf)

/-- KeyPair::verify of client/crypto.rs.  Note the slip in the source: line
100 passes msg.as_bytes(), not the signature, to RSA_public_decrypt; the
sig argument is never read.  The recovered bytes land in a key-size zero
buffer that is compared, whole, against the digest. -/
def kpVerify (digest : String → String) (kp : KeyPair) (msg sig : String) :
    Except Err Unit :=
  match canVerify kp with
  | .error e => .error e
  | .ok key =>
    let hashMsg := digest msg
    match rsaPublicDecrypt key (utf8Encode msg) with
    | .error e => .error e
    | .ok recovered =>
      let buf := recovered ++ List.replicate (rsaSize key - recovered.length) 0
      match utf8DecodeStr buf with
      | none => .error .utf8Error
      | some s => if hashMsg = s then .ok () else .error .verifyError

/-- KeyPair::generate of client/crypto.rs.  The 4096-bit key material is
drawn from the OpenSSL RNG, which is external; the embedding receives it
as an argument.  The internal PEM round trip of the source is the identity
on the material and cannot fail on it, so generate is total here.  Note
the source stores both halves whatever the requested mode is. -/
def kpGenerate (material : RsaPriv) (mode : Mode) : KeyPair :=
  { pub := some { n := material.n, e := material.e }, priv := some material,
    mode := mode }

/-- KeyPair::to_public of client/crypto.rs. -/
def kpToPublic (kp : KeyPair) : Except Err KeyPair :=
  match canEncrypt kp with
  | .error e => .error e
  | .ok key => .ok { pub := some key, priv := none, mode := .encrypt }

/-- KeyPair::to_verify of client/crypto.rs. -/
def kpToVerify (kp : KeyPair) : Except Err KeyPair :=
  match canVerify kp with
  | .error e => .error e
  | .ok key => .ok { pub := some key, priv := none, mode := .verify }

/-- Modelled from the spec: the serialization section calls pub_key_pem a
text-encoded standard key-interchange format.  The exact DER body OpenSSL
produces for a SubjectPublicKeyInfo is external library behavior; it is
modelled as an injective length-prefixed byte encoding of the pair (n, e).
No claim depends on its internal layout, only on the round trip and on the
PEM armour around it. -/
def derPubKey (key : RsaPub) : List Nat :=
  i2osp 4 (byteLen key.n) ++ i2osp (byteLen key.n) key.n ++
    i2osp 4 (byteLen key.e) ++ i2osp (byteLen key.e) key.e

/-- Inverse of derPubKey; fails on malformed input. -/
def derParsePub (l : List Nat) : Except Err RsaPub :=
  let ln := os2ip (l.take 4)
  let rest := l.drop 4
  let nbytes := rest.take ln
  let rest2 := rest.drop ln
  let le := os2ip (rest2.take 4)
  let rest3 := rest2.drop 4
  let ebytes := rest3.take le
  let rest4 := rest3.drop le
  if rest4 = [] ∧ nbytes.length = ln ∧ ebytes.length = le then
    .ok { n := os2ip nbytes, e := os2ip ebytes }
  else .error (.opensslError "asn1 parse error")

/-- Split a character list into newline-terminated lines of 64 characters,
the body layout PEM_write uses. -/
def pemChunkLines (fuel : Nat) (l : List Char) : List Char :=
  match fuel with
  | 0 => []
  | fuel + 1 =>
    match l with
    | [] => []
    | _ => (l.take 64 ++ ['\n']) ++ pemChunkLines fuel (l.drop 64)

/-- PEM encoding of a public key: armour lines around the padded base64 of
the DER body, as public_key_to_pem produces. -/
def pemEncodePub (key : RsaPub) : String :=
  let body := b64encodePadBytes (derPubKey key)
  String.mk ("-----BEGIN PUBLIC KEY-----\n".data ++
    pemChunkLines (body.length + 1) body ++ "-----END PUBLIC KEY-----\n".data)

/-- PEM parsing, as public_key_from_pem: scan for the armour (failing with
the OpenSSL no start line error when absent), then base64-decode the body
and parse the DER. -/
def pemParsePub (s : String) : Except Err RsaPub :=
  let header : List Char := "-----BEGIN PUBLIC KEY-----\n".data
  let footer : List Char := "-----END PUBLIC KEY-----\n".data
  if s.data.take header.length ≠ header then .error (.opensslError "no start line")
  else
    let mid := s.data.drop header.length
    if mid.drop (mid.length - footer.length) ≠ footer then
      .error (.opensslError "bad end line")
    else
      match b64decodePadChars
          ((mid.take (mid.length - footer.length)).filter (fun c => c ≠ '\n')) with
      | .error e => .error e
      | .ok der => derParsePub der

/-- KeyPair::pub_key_pem of client/crypto.rs: unpadded base64 of the PEM
bytes. -/
def kpPubKeyPem (kp : KeyPair) : Except Err String :=
  match kp.pub with
  | some key => .ok (b64encodeStr (utf8Encode (pemEncodePub key)))
  | none => .error (.noKeyError "No public key")

/-- KeyPair::from_pub_pem of client/crypto.rs: reject private-capable
modes, then parse the input as PEM. -/
def kpFromPubPem (msg : String) (mode : Mode) : Except Err KeyPair :=
  match mode with
  | .encryptDecrypt => .error (.modeError "cannot load only public key for decrypt mode")
  | .verifySign => .error (.modeError "cannot load only public key for sign mode")
  | m =>
    match pemParsePub msg with
    | .error e => .error e
    | .ok key => .ok { pub := some key, priv := none, mode := m }

/-- Message of client/message.rs: the decrypted, local-only form. -/
structure Message where
  id : String
  sourceId : String
  targetId : String
  content : String
  createdAt : Int
  deriving DecidableEq, Repr

/-- EncryptedMessage of client/message.rs: the wire form. -/
structure EncryptedMessage where
  id : String
  sourceId : String
  targetId : String
  encContent : String
  createdAt : Int
  sig : String
  deriving DecidableEq, Repr

/-- Friend of client/friend.rs. -/
structure Friend where
  id : String
  nickname : String
  encKey : KeyPair
  sigKey : KeyPair
  messages : List Message
  deriving DecidableEq, Repr

/-- Friend::encrypt: encrypt under the friend public encryption key. -/
def friendEncrypt (f : Friend) (ps : List Nat) (msg : String) : Except Err String :=
  kpEncrypt f.encKey ps msg

/-- Friend::verify: verify the encrypted content against the friend verify
key, passing the signature field (which the key operation then ignores,
see kpVerify). -/
def friendVerify (digest : String → String) (f : Friend) (msg : EncryptedMessage) :
    Except Err Unit :=
  kpVerify digest f.sigKey msg.encContent msg.sig

/-- Friend::add_message: append to the history. -/
def friendAddMessage (f : Friend) (m : Message) : Friend :=
  { f with messages := f.messages ++ [m] }

/-- Lowercase hexadecimal digit: 0..9 map to digits, 10..15 to letters. -/
def hexDigit (n : Nat) : Char :=
  Char.ofNat (if n < 10 then 48 + n else 87 + n)

/-- serde_json string escaping: quote, backslash and control characters. -/
def jsonEscapeChar (c : Char) : List Char :=
  if c = '"' then ['\\', '"']
  else if c = '\\' then ['\\', '\\']
  else if c.toNat = 8 then ['\\', 'b']
  else if c.toNat = 9 then ['\\', 't']
  else if c.toNat = 10 then ['\\', 'n']
  else if c.toNat = 12 then ['\\', 'f']
  else if c.toNat = 13 then ['\\', 'r']
  else if c.toNat < 32 then
    ['\\', 'u', '0', '0', hexDigit (c.toNat / 16), hexDigit (c.toNat % 16)]
  else [c]

/-- Escape every character of a string body. -/
def jsonEscapeList : List Char → List Char
  | [] => []
  | c :: cs => jsonEscapeChar c ++ jsonEscapeList cs

/-- FriendJson of client/friend.rs: the serde exchange record. -/
structure FriendJson where
  id : String
  nickname : String
  pubKey : String
  verKey : String
  deriving DecidableEq, Repr

/-- serde_json::to_string of a FriendJson: the four string members in
declaration order, without interior whitespace. -/
def friendJsonToString (fj : FriendJson) : String :=
  String.mk ("\x7b\"id\":\"".data ++ jsonEscapeList fj.id.data ++
    "\",\"nickname\":\"".data ++ jsonEscapeList fj.nickname.data ++
    "\",\"pub_key\":\"".data ++ jsonEscapeList fj.pubKey.data ++
    "\",\"ver_key\":\"".data ++ jsonEscapeList fj.verKey.data ++
    "\"\x7d".data)

/-- Value of a hexadecimal digit character, 16 for a foreign character. -/
def hexVal (c : Char) : Nat :=
  if '0' ≤ c ∧ c ≤ '9' then c.toNat - 48
  else if 'a' ≤ c ∧ c ≤ 'f' then c.toNat - 87
  else if 'A' ≤ c ∧ c ≤ 'F' then c.toNat - 55
  else 16

/-- Parse a JSON string body after its opening quote, handling the escape
sequences of the JSON grammar, up to the closing quote.  Returns the body
and the remaining characters. -/
def jsonParseString (fuel : Nat) (l : List Char) : Option (List Char × List Char) :=
  match fuel with
  | 0 => none
  | fuel + 1 =>
    match l with
    | [] => none
    | c :: rest =>
      if c = '"' then some ([], rest)
      else if c = '\\' then
        match rest with
        | [] => none
        | e :: rest2 =>
          let dec : Option Char :=
            if e = '"' then some '"'
            else if e = '\\' then some '\\'
            else if e = '/' then some '/'
            else if e = 'b' then some (Char.ofNat 8)
            else if e = 't' then some (Char.ofNat 9)
            else if e = 'n' then some (Char.ofNat 10)
            else if e = 'f' then some (Char.ofNat 12)
            else if e = 'r' then some (Char.ofNat 13)
            else none
          match dec with
          | some d =>
            (jsonParseString fuel rest2).map (fun p => (d :: p.1, p.2))
          | none =>
            if e = 'u' then
              let h := rest2.take 4
              if h.length = 4 ∧ (∀ x ∈ h, hexVal x < 16) then
                let v := ((hexVal (h.getD 0 '0') * 16 + hexVal (h.getD 1 '0')) * 16 +
                  hexVal (h.getD 2 '0')) * 16 + hexVal (h.getD 3 '0')
                (jsonParseString fuel (rest2.drop 4)).map
                  (fun p => (Char.ofNat v :: p.1, p.2))
              else none
            else none
      else
        (jsonParseString fuel rest).map (fun p => (c :: p.1, p.2))

/-- Consume an expected literal character sequence. -/
def jsonParseLit (lit : List Char) (l : List Char) : Option (List Char) :=
  if l.take lit.length = lit then some (l.drop lit.length) else none

/-- serde_json::from_slice into FriendJson, on the canonical shape the
serializer emits (the four string members in declaration order, no
interior whitespace); no call site produces any other shape. -/
def friendJsonFromChars (l : List Char) : Except Err FriendJson :=
  let step := fun (lit : String) (l : List Char) =>
    match jsonParseLit lit.data l with
    | none => none
    | some rest => jsonParseString (rest.length + 1) rest
  match step "\x7b\"id\":\"" l with
  | none => .error (.jsonError "invalid friend json")
  | some (idv, l1) =>
    match step ",\"nickname\":\"" l1 with
    | none => .error (.jsonError "invalid friend json")
    | some (nickv, l2) =>
      match step ",\"pub_key\":\"" l2 with
      | none => .error (.jsonError "invalid friend json")
      | some (pubv, l3) =>
        match step ",\"ver_key\":\"" l3 with
        | none => .error (.jsonError "invalid friend json")
        | some (verv, l4) =>
          if l4 = "\x7d".data then
            .ok { id := String.mk idv, nickname := String.mk nickv,
                  pubKey := String.mk pubv, verKey := String.mk verv }
          else .error (.jsonError "invalid friend json")

/-- Friend::to_string of client/friend.rs: JSON record of id, nickname and
the two base64-PEM public keys, then unpadded base64 of the JSON bytes. -/
def friendToString (f : Friend) : Except Err String :=
  match kpPubKeyPem f.encKey with
  | .error e => .error e
  | .ok pk =>
    match kpPubKeyPem f.sigKey with
    | .error e => .error e
    | .ok vk =>
      let json := friendJsonToString
        { id := f.id, nickname := f.nickname, pubKey := pk, verKey := vk }
      .ok (b64encodeStr (utf8Encode json))

/-- Friend::from_string of client/friend.rs: outer base64 decode, JSON
parse, empty-id check, then from_pub_pem on the two embedded key fields
exactly as stored. -/
def friendFromString (msg : String) : Except Err Friend :=
  match b64decodeStr msg with
  | .error e => .error e
  | .ok bytes =>
    match utf8DecodeStr bytes with
    | none => .error (.jsonError "invalid utf8")
    | some s =>
      match friendJsonFromChars s.data with
      | .error e => .error e
      | .ok fj =>
        if fj.id = "" then .error (.invalidShare "id is empty")
        else
          match kpFromPubPem fj.pubKey .encrypt with
          | .error e => .error e
          | .ok ek =>
            match kpFromPubPem fj.verKey .verify with
            | .error e => .error e
            | .ok vk =>
              .ok { id := fj.id, nickname := fj.nickname, encKey := ek,
                    sigKey := vk, messages := [] }

/-- Lookup in the friend map (HashMap modelled as an association list with
unique keys). -/
def lookupAssoc : List (String × Friend) → String → Option Friend
  | [], _ => none
  | (k, v) :: rest, key => if k = key then some v else lookupAssoc rest key

/-- Keyed insert in the friend map: replace the binding when present,
append otherwise. -/
def insertAssoc : List (String × Friend) → String → Friend → List (String × Friend)
  | [], key, v => [(key, v)]
  | (k, w) :: rest, key, v =>
    if k = key then (k, v) :: rest else (k, w) :: insertAssoc rest key v

/-- User of client/user.rs. -/
structure User where
  id : String
  nickname : String
  encKey : KeyPair
  sigKey : KeyPair
  friends : List (String × Friend)
  deriving DecidableEq, Repr

/-- User::new of client/user.rs: both key pairs are generated (randomness
external, received as the material arguments) and the fresh uuid is an
external random token. -/
def userNew (nickname : String) (encMaterial sigMaterial : RsaPriv) (uuid : String) :
    User :=
  { id := uuid, nickname := nickname,
    encKey := kpGenerate encMaterial .encryptDecrypt,
    sigKey := kpGenerate sigMaterial .verifySign,
    friends := [] }

/-- User::add_friend of client/user.rs. -/
def userAddFriend (u : User) (f : Friend) : Except Err User :=
  if (lookupAssoc u.friends f.id).isSome then
    .error (.duplicateFriend "duplicate friend added")
  else .ok { u with friends := insertAssoc u.friends f.id f }

/-- User::create_message of client/user.rs.  The fresh message uuid and the
wall-clock timestamp are external inputs; ps is the padding randomness of
the encryption. -/
def userCreateMessage (digest : String → String) (u : User) (friendId msg : String)
    (ps : List Nat) (uuid : String) (now : Int) : Except Err EncryptedMessage :=
  match lookupAssoc u.friends friendId with
  | none => .error (.noSuchFriend "no friend with Id")
  | some friend =>
    match friendEncrypt friend ps msg with
    | .error e => .error e
    | .ok encMsg =>
      match kpSign digest u.sigKey encMsg with
      | .error e => .error e
      | .ok msgSig =>
        .ok { id := uuid, sourceId := u.id, targetId := friendId,
              encContent := encMsg, createdAt := now, sig := msgSig }

/-- User::receive_message of client/user.rs.  The source takes the user by
mutable reference and mutates only in the final add_message; the embedding
returns the updated user, so an error return is exactly the unchanged
state. -/
def userReceiveMessage (digest : String → String) (u : User)
    (em : EncryptedMessage) : Except Err User :=
  if em.targetId ≠ u.id then .error (.unknownMessage "received message for another id")
  else
    match lookupAssoc u.friends em.sourceId with
    | none => .error (.noSuchFriend "no friend with Id")
    | some friend =>
      match friendVerify digest friend em with
      | .error e => .error e
      | .ok _ =>
        match kpDecrypt u.encKey em.encContent with
        | .error e => .error e
        | .ok msg =>
          let message : Message :=
            { id := em.id, sourceId := em.sourceId, targetId := em.targetId,
              content := msg, createdAt := em.createdAt }
          .ok { u with friends :=
            insertAssoc u.friends em.sourceId (friendAddMessage friend message) }

/-- User::to_friend of client/user.rs. -/
def userToFriend (u : User) : Except Err Friend :=
  match kpToPublic u.encKey with
  | .error e => .error e
  | .ok ek =>
    match kpToVerify u.sigKey with
    | .error e => .error e
    | .ok vk =>
      .ok { id := u.id, nickname := u.nickname, encKey := ek, sigKey := vk,
            messages := [] }

theorem rsa_fermat_step (p e d m : Nat) (hp : p.Prime)
    (hed : e * d ≡ 1 [MOD p - 1]) (hed1 : 1 ≤ e * d) :
    m ^ (e * d) ≡ m [MOD p] := by
  by_cases hdvd : p ∣ m
  · have h1 : m ≡ 0 [MOD p] := (Nat.modEq_zero_iff_dvd).mpr hdvd
    calc m ^ (e * d) ≡ 0 ^ (e * d) [MOD p] := h1.pow _
      _ = 0 := by rw [zero_pow (by omega)]
      _ ≡ m [MOD p] := h1.symm
  · haveI : Fact p.Prime := ⟨hp⟩
    have hm : (m : ZMod p) ≠ 0 := by
      rw [Ne, ZMod.natCast_zmod_eq_zero_iff_dvd]
      exact hdvd
    obtain ⟨t, ht⟩ : ∃ t, e * d = 1 + (p - 1) * t := by
      have hdvd2 : (p - 1) ∣ (e * d - 1) := (Nat.modEq_iff_dvd' hed1).mp hed.symm
      obtain ⟨t, ht⟩ := hdvd2
      exact ⟨t, by omega⟩
    have hfer : (m : ZMod p) ^ (p - 1) = 1 := ZMod.pow_card_sub_one_eq_one hm
    have hz : (m : ZMod p) ^ (e * d) = (m : ZMod p) := by
      rw [ht, pow_add, pow_one, pow_mul, hfer, one_pow, mul_one]
    have := (ZMod.natCast_eq_natCast_iff (m ^ (e * d)) m p).mp (by push_cast; exact hz)
    exact this

theorem rsa_correct (p q e d m : Nat) (hp : p.Prime) (hq : q.Prime) (hpq : p ≠ q)
    (hed1 : 1 ≤ e * d) (h1 : e * d ≡ 1 [MOD p - 1]) (h2 : e * d ≡ 1 [MOD q - 1])
    (hm : m < p * q) :
    (m ^ e % (p * q)) ^ d % (p * q) = m := by
  have hcop : Nat.Coprime p q := (Nat.coprime_primes hp hq).mpr hpq
  have hstep : (m ^ e % (p * q)) ^ d ≡ m ^ (e * d) [MOD p * q] := by
    calc (m ^ e % (p * q)) ^ d ≡ (m ^ e) ^ d [MOD p * q] := (Nat.mod_modEq _ _).pow d
      _ = m ^ (e * d) := by rw [← pow_mul]
  have hmp : m ^ (e * d) ≡ m [MOD p] := rsa_fermat_step p e d m hp h1 hed1
  have hmq : m ^ (e * d) ≡ m [MOD q] := rsa_fermat_step q e d m hq h2 hed1
  have hn : m ^ (e * d) ≡ m [MOD p * q] :=
    (Nat.modEq_and_modEq_iff_modEq_mul hcop).mp ⟨hmp, hmq⟩
  have hfin : (m ^ e % (p * q)) ^ d ≡ m [MOD p * q] := hstep.trans hn
  have : (m ^ e % (p * q)) ^ d % (p * q) = m % (p * q) := hfin
  rw [Nat.mod_eq_of_lt hm] at this
  exact this

/-- RSA round trip phrased on powMod, the form the embedded primitives
use. -/
theorem rsa_correct_powMod (p q e d m : Nat) (hp : p.Prime) (hq : q.Prime)
    (hpq : p ≠ q) (hed1 : 1 ≤ e * d) (h1 : e * d ≡ 1 [MOD p - 1])
    (h2 : e * d ≡ 1 [MOD q - 1]) (hm : m < p * q) :
    powMod (powMod m e (p * q)) d (p * q) = m := by
  rw [powMod_eq, powMod_eq]
  exact rsa_correct p q e d m hp hq hpq hed1 h1 h2 hm

theorem utf8EncodeChar_bytes_lt (c : Char) : ∀ b ∈ utf8EncodeChar c, b < 256 := by
  have hval : c.toNat < 55296 ∨ (57343 < c.toNat ∧ c.toNat < 1114112) := c.valid
  intro b hb
  rw [utf8EncodeChar] at hb
  split_ifs at hb <;> simp at hb <;> omega

theorem utf8EncodeList_bytes_lt (cs : List Char) :
    ∀ b ∈ utf8EncodeList cs, b < 256 := by
  induction cs with
  | nil => intro b hb; simp [utf8EncodeList] at hb
  | cons c cs ih =>
    intro b hb
    rw [utf8EncodeList] at hb
    rcases List.mem_append.mp hb with h | h
    · exact utf8EncodeChar_bytes_lt c b h
    · exact ih b h

theorem string_of_data_nil (s : String) (h : s.data = []) : s = "" := by
  cases s with
  | mk data =>
    have hd : data = [] := h
    rw [hd]

theorem utf8Encode_ne_nil (s : String) (h : s ≠ "") : utf8Encode s ≠ [] := by
  intro hc
  apply h
  apply string_of_data_nil
  cases hd : s.data with
  | nil => rfl
  | cons c cs =>
    rw [utf8Encode, hd, utf8EncodeList] at hc
    have h1 := utf8EncodeChar_length_pos c
    have h2 : (utf8EncodeChar c).length + (utf8EncodeList cs).length = 0 := by
      rw [← List.length_append, hc]
      rfl
    omega

theorem firstEqIdx_zero_append (ps : List Nat) (tail : List Nat)
    (hps : ∀ b ∈ ps, b ≠ 0) :
    firstEqIdx 0 (ps ++ 0 :: tail) = some ps.length := by
  induction ps with
  | nil => simp [firstEqIdx]
  | cons b ps ih =>
    rw [List.cons_append, firstEqIdx,
      if_neg (hps b (by simp)), ih (fun x hx => hps x (by simp [hx]))]
    simp

theorem drop_append_cons (ps : List Nat) (x : Nat) (tail : List Nat) :
    (ps ++ x :: tail).drop (ps.length + 1) = tail := by
  induction ps with
  | nil => simp
  | cons b ps ih => simpa using ih

theorem canEncrypt_generate_ed (nm : RsaPriv) :
    canEncrypt (kpGenerate nm .encryptDecrypt) = .ok { n := nm.n, e := nm.e } := rfl

theorem canDecrypt_generate_ed (nm : RsaPriv) :
    canDecrypt (kpGenerate nm .encryptDecrypt) = .ok nm := rfl

theorem rsaPublicEncrypt_eval (key : RsaPub) (ps msg : List Nat)
    (hlen : msg.length + 11 ≤ rsaSize key)
    (hps : ps.length = rsaSize key - 3 - msg.length)
    (hpsb : ∀ b ∈ ps, 0 < b ∧ b < 256) :
    rsaPublicEncrypt key ps msg
      = .ok (i2osp (rsaSize key)
          (powMod (os2ip (0 :: 2 :: (ps ++ 0 :: msg))) key.e key.n)) := by
  simp only [rsaPublicEncrypt]
  rw [if_neg (by omega), if_pos ⟨hps, hpsb⟩]

theorem rsaPrivateDecrypt_eval (key : RsaPriv) (input : List Nat)
    (hlen : input.length ≤ byteLen key.n) (hm : os2ip input < key.n) :
    rsaPrivateDecrypt key input
      = pkcs1Type2Unpad (i2osp (byteLen key.n) (powMod (os2ip input) key.d key.n)) := by
  simp only [rsaPrivateDecrypt]
  rw [if_neg (by omega), if_neg (by omega)]

theorem pkcs1Type2Unpad_eval (ps msg : List Nat) (hps8 : 8 ≤ ps.length)
    (hpsnz : ∀ b ∈ ps, b ≠ 0) :
    pkcs1Type2Unpad (0 :: 2 :: (ps ++ 0 :: msg)) = .ok msg := by
  rw [pkcs1Type2Unpad, firstEqIdx_zero_append ps msg hpsnz]
  simp only []
  rw [if_neg (by omega), drop_append_cons]

theorem kpEncrypt_generate_ed_eval (nm : RsaPriv) (ps : List Nat) (P : String)
    (hlen : (utf8Encode P).length + 11 ≤ byteLen nm.n)
    (hps : ps.length = byteLen nm.n - 3 - (utf8Encode P).length)
    (hpsb : ∀ b ∈ ps, 0 < b ∧ b < 256) :
    kpEncrypt (kpGenerate nm .encryptDecrypt) ps P
      = .ok (b64encodeStr (i2osp (byteLen nm.n)
          (powMod (os2ip (0 :: 2 :: (ps ++ 0 :: utf8Encode P))) nm.e nm.n))) := by
  simp only [kpEncrypt, canEncrypt_generate_ed,
    rsaPublicEncrypt_eval { n := nm.n, e := nm.e } ps (utf8Encode P) hlen hps hpsb,
    rsaSize]

theorem em2_facts (ps msg : List Nat) (k : Nat)
    (hps : ps.length = k - 3 - msg.length) (hlen : msg.length + 11 ≤ k)
    (hmb : ∀ b ∈ msg, b < 256) (hpsb : ∀ b ∈ ps, 0 < b ∧ b < 256) :
    (0 :: 2 :: (ps ++ 0 :: msg)).length = k ∧
      (∀ b ∈ 0 :: 2 :: (ps ++ 0 :: msg), b < 256) ∧
      os2ip (0 :: 2 :: (ps ++ 0 :: msg)) < 256 ^ (k - 1) := by
  have hlen2 : (0 :: 2 :: (ps ++ 0 :: msg)).length = k := by
    simp only [List.length_cons, List.length_append]
    omega
  have hbytes : ∀ b ∈ 0 :: 2 :: (ps ++ 0 :: msg), b < 256 := by
    intro b hb
    simp only [List.mem_cons, List.mem_append] at hb
    rcases hb with h | h | h | h | h
    · omega
    · omega
    · exact (hpsb b h).2
    · omega
    · exact hmb b h
  refine ⟨hlen2, hbytes, ?_⟩
  have h0 : os2ip (0 :: 2 :: (ps ++ 0 :: msg)) = os2ip (2 :: (ps ++ 0 :: msg)) :=
    os2ip_cons_zero _
  have hlt := os2ip_lt (2 :: (ps ++ 0 :: msg)) (by
    intro b hb
    exact hbytes b (by simp only [List.mem_cons] at hb ⊢; tauto))
  rw [h0]
  have : (2 :: (ps ++ 0 :: msg)).length = k - 1 := by
    simp only [List.length_cons, List.length_append] at hlen2 ⊢
    omega
  rw [this] at hlt
  exact hlt

theorem kpDecrypt_generate_ed_eval (nm : RsaPriv) (c : Nat) (msg ps : List Nat)
    (P : String) (hclt : c < nm.n)
    (hrsa : powMod c nm.d nm.n = os2ip (0 :: 2 :: (ps ++ 0 :: msg)))
    (hemlen : (0 :: 2 :: (ps ++ 0 :: msg)).length = byteLen nm.n)
    (hembytes : ∀ b ∈ 0 :: 2 :: (ps ++ 0 :: msg), b < 256)
    (hps8 : 8 ≤ ps.length) (hpsnz : ∀ b ∈ ps, b ≠ 0)
    (hmsg_ne : msg ≠ []) (hmsg_last : msg.getLast hmsg_ne ≠ 0)
    (hdecode : utf8DecodeStr msg = some P) (htrim : rustTrim P = P) :
    kpDecrypt (kpGenerate nm .encryptDecrypt)
      (b64encodeStr (i2osp (byteLen nm.n) c)) = .ok P := by
  have hct_bytes := i2osp_bytes_lt (byteLen nm.n) c
  have hctlen := i2osp_length (byteLen nm.n) c
  have hnpos : 0 < nm.n := by omega
  have hck : c < 256 ^ byteLen nm.n :=
    lt_trans hclt (byteLen_bounds nm.n hnpos).2
  have hos : os2ip (i2osp (byteLen nm.n) c) = c := by
    rw [os2ip_i2osp]
    exact Nat.mod_eq_of_lt hck
  simp only [kpDecrypt, canDecrypt_generate_ed, b64decodeStr_encodeStr _ hct_bytes]
  rw [rsaPrivateDecrypt_eval nm _ (by rw [hctlen]) (by rw [hos]; exact hclt)]
  rw [hos, hrsa]
  rw [show i2osp (byteLen nm.n) (os2ip (0 :: 2 :: (ps ++ 0 :: msg)))
      = 0 :: 2 :: (ps ++ 0 :: msg) from by
    conv_lhs => rw [← hemlen]
    exact i2osp_os2ip _ hembytes]
  rw [pkcs1Type2Unpad_eval ps msg hps8 hpsnz]
  simp only [stripTrailingZeros_append msg _ hmsg_ne hmsg_last, hdecode, htrim]

theorem kp_enc_dec_roundtrip (p q e d : Nat) (ps : List Nat) (P : String)
    (hp : p.Prime) (hq : q.Prime) (hpq : p ≠ q) (hed1 : 1 ≤ e * d)
    (h1 : e * d ≡ 1 [MOD p - 1]) (h2 : e * d ≡ 1 [MOD q - 1])
    (hP : P ≠ "") (hnul : ∀ b ∈ utf8Encode P, b ≠ 0) (htrim : rustTrim P = P)
    (hlen : (utf8Encode P).length + 11 ≤ byteLen (p * q))
    (hps : ps.length = byteLen (p * q) - 3 - (utf8Encode P).length)
    (hpsb : ∀ b ∈ ps, 0 < b ∧ b < 256) :
    (kpEncrypt (kpGenerate { n := p * q, e := e, d := d } .encryptDecrypt) ps P).bind
      (kpDecrypt (kpGenerate { n := p * q, e := e, d := d } .encryptDecrypt))
      = .ok P := by
  have hp2 := hp.two_le
  have hq2 := hq.two_le
  have hnpos : 0 < p * q := by positivity
  have hMbytes : ∀ b ∈ utf8Encode P, b < 256 := utf8EncodeList_bytes_lt P.data
  have hMne : utf8Encode P ≠ [] := utf8Encode_ne_nil P hP
  obtain ⟨hemlen, hembytes, hemval⟩ :=
    em2_facts ps (utf8Encode P) (byteLen (p * q)) hps hlen hMbytes hpsb
  have hbounds := byteLen_bounds (p * q) hnpos
  have hemlt : os2ip (0 :: 2 :: (ps ++ 0 :: utf8Encode P)) < p * q :=
    lt_of_lt_of_le hemval hbounds.1
  rw [kpEncrypt_generate_ed_eval { n := p * q, e := e, d := d } ps P hlen hps hpsb]
  show Except.bind _ _ = _
  simp only [Except.bind]
  have hclt : powMod (os2ip (0 :: 2 :: (ps ++ 0 :: utf8Encode P))) e (p * q) < p * q := by
    rw [powMod_eq]
    exact Nat.mod_lt _ hnpos
  exact kpDecrypt_generate_ed_eval { n := p * q, e := e, d := d } _
    (utf8Encode P) ps P hclt
    (rsa_correct_powMod p q e d _ hp hq hpq hed1 h1 h2 hemlt)
    hemlen hembytes (by omega) (fun b hb => by have := (hpsb b hb).1; omega)
    hMne (fun hc => hnul _ (List.getLast_mem hMne) hc)
    (utf8DecodeStr_encode P) htrim

def exQ : Nat := 565738597953418785628899770369

theorem zmodPow_powMod (n a k : Nat) :
    ((a : ZMod n)) ^ k = ((powMod a k n : Nat) : ZMod n) := by
  rw [powMod_eq, ZMod.natCast_mod, Nat.cast_pow]

set_option maxRecDepth 100000 in
theorem exQ_pow_all : (3 : ZMod exQ) ^ (exQ - 1) = 1 := by
  have hcomp : powMod 3 (exQ - 1) exQ = 1 := by decide
  rw [show (3 : ZMod exQ) = ((3 : Nat) : ZMod exQ) by norm_cast, zmodPow_powMod, hcomp]
  exact Nat.cast_one

set_option maxRecDepth 100000 in
theorem exQ_pow_half : (3 : ZMod exQ) ^ ((exQ - 1) / 2) ≠ 1 := by
  rw [show (3 : ZMod exQ) = ((3 : Nat) : ZMod exQ) by norm_cast, zmodPow_powMod]
  decide

set_option maxRecDepth 100000 in
theorem exQ_pow_457 : (3 : ZMod exQ) ^ ((exQ - 1) / 457) ≠ 1 := by
  rw [show (3 : ZMod exQ) = ((3 : Nat) : ZMod exQ) by norm_cast, zmodPow_powMod]
  decide

theorem exQ_prime : Nat.Prime exQ := by
  have hq1 : exQ - 1 = 457 * 2 ^ 90 := by norm_num [exQ]
  refine lucas_primality exQ 3 exQ_pow_all ?_
  intro r hr hdvd
  have hcase : r = 457 ∨ r = 2 := by
    rw [hq1] at hdvd
    rcases (Nat.Prime.dvd_mul hr).mp hdvd with h | h
    · exact Or.inl ((Nat.prime_dvd_prime_iff_eq hr (by norm_num)).mp h)
    · exact Or.inr ((Nat.prime_dvd_prime_iff_eq hr Nat.prime_two).mp
        (hr.dvd_of_dvd_pow h))
  rcases hcase with h | h
  · rw [h]; exact exQ_pow_457
  · rw [h]; exact exQ_pow_half

/-- str::trim_end: strip White_Space characters from the end only; used to
state the no-trailing-whitespace premise of claim C5 exactly as written. -/
def rustTrimEnd (s : String) : String :=
  String.mk ((s.data.reverse.dropWhile rustIsWhitespace).reverse)

/-- Concrete witness key material: modulus 3 * exQ (13 bytes), e = 3, and
the matching private exponent. -/
def exD : Nat := 377159065302279190419266513579

/-- Working EncryptDecrypt key pair over the 13-byte modulus 3 * exQ. -/
def exKey5 : KeyPair := kpGenerate { n := 3 * exQ, e := 3, d := exD } .encryptDecrypt

theorem lookupAssoc_insertAssoc_self (l : List (String × Friend)) (key : String)
    (v : Friend) : lookupAssoc (insertAssoc l key v) key = some v := by
  induction l with
  | nil => simp [insertAssoc, lookupAssoc]
  | cons kw rest ih =>
    obtain ⟨k, w⟩ := kw
    rw [insertAssoc]
    by_cases h : k = key
    · rw [if_pos h, lookupAssoc, if_pos h]
    · rw [if_neg h, lookupAssoc, if_neg h, ih]

set_option maxRecDepth 100000 in
/-- C5 counterexample: the plaintext " a" satisfies every premise of the
claim as stated (no NUL bytes, no trailing whitespace, within the size
bound of a generated EncryptDecrypt key), yet decrypt(encrypt(" a"))
returns "a", because KeyPair::decrypt trims surrounding whitespace, not
only trailing whitespace.  The claim as stated is therefore false. -/
theorem claim_C5_counterexample :
    (∀ b ∈ utf8Encode " a", b ≠ 0) ∧
    rustTrimEnd " a" = " a" ∧
    (utf8Encode " a").length + 11 ≤ byteLen (3 * exQ) ∧
    (kpEncrypt exKey5 (List.replicate 8 170) " a").bind (kpDecrypt exKey5)
      = .ok "a" ∧
    ("a" : String) ≠ " a" := by
  refine ⟨by decide, by decide, by decide, by decide, by decide⟩

/-- C5 (corrected): for every KeyPair generated in EncryptDecrypt mode from
valid RSA material, every padding randomness the OpenSSL RNG can draw, and
every plaintext P within the size bound that is nonempty, contains no NUL
bytes, and has no leading or trailing whitespace (P.trim() == P),
decrypt(encrypt(P)) = P. -/
theorem claim_C5_amended (p q e d : Nat) (ps : List Nat) (P : String)
    (hp : p.Prime) (hq : q.Prime) (hpq : p ≠ q) (hed1 : 1 ≤ e * d)
    (h1 : e * d ≡ 1 [MOD p - 1]) (h2 : e * d ≡ 1 [MOD q - 1])
    (hP : P ≠ "") (hnul : ∀ b ∈ utf8Encode P, b ≠ 0) (htrim : rustTrim P = P)
    (hlen : (utf8Encode P).length + 11 ≤ byteLen (p * q))
    (hps : ps.length = byteLen (p * q) - 3 - (utf8Encode P).length)
    (hpsb : ∀ b ∈ ps, 0 < b ∧ b < 256) :
    (kpEncrypt (kpGenerate { n := p * q, e := e, d := d } .encryptDecrypt) ps P).bind
      (kpDecrypt (kpGenerate { n := p * q, e := e, d := d } .encryptDecrypt))
      = .ok P :=
  kp_enc_dec_roundtrip p q e d ps P hp hq hpq hed1 h1 h2 hP hnul htrim hlen hps hpsb

set_option maxRecDepth 100000 in
/-- C5 witness: the corrected round trip holds at the concrete 13-byte key
(p = 3, q = exQ, e = 3, d = exD) with P = "a" and nine 0xAA padding
bytes. -/
theorem claim_C5_witness :
    (kpEncrypt (kpGenerate { n := 3 * exQ, e := 3, d := exD } .encryptDecrypt)
        (List.replicate 9 170) "a").bind
      (kpDecrypt (kpGenerate { n := 3 * exQ, e := 3, d := exD } .encryptDecrypt))
      = .ok "a" :=
  claim_C5_amended 3 exQ 3 exD (List.replicate 9 170) "a"
    (by norm_num) exQ_prime (by decide) (by decide) (by decide) (by decide)
    (by decide) (by decide) (by decide) (by decide) (by decide) (by decide)

/-- Sixteen-byte sign/verify key pair for the C1 demonstration; the
material values are arbitrary because verify never touches the private
half and fails before using the public exponent. -/
def c1Key : KeyPair := kpGenerate { n := 2 ^ 120 + 1, e := 3, d := 3 } .verifySign

/-- C1 (code bug): KeyPair::verify passes the message, not the signature,
to RSA_public_decrypt (the sig parameter of the source is never read), so
for this generated VerifySign key and the message below, verify fails with
an OpenSSL error for every signature string, in particular for sign(M).
The claim that verify(M, sign(M)) succeeds is the intended specification
and the code contradicts it. -/
theorem claim_C1 (digest : String → String) (s : String) :
    kpVerify digest c1Key "hello, this is a test message" s
      = .error (.opensslError "data greater than mod len") := rfl

/-- Digest stand-in for the end-to-end demonstrations; every theorem in
this file holds for arbitrary digest functions, and a two-character output
keeps sign within the small demonstration key. -/
def dgDigest : String → String := fun _ => "dg"

/-- User A of the end-to-end scenario, before the friend exchange. -/
def userA0 : User :=
  userNew "alice" { n := 2 ^ 120 + 3, e := 3, d := 3 }
    { n := 2 ^ 120 + 1, e := 3, d := 3 } "A-id"

/-- User B of the end-to-end scenario, before the friend exchange. -/
def userB0 : User :=
  userNew "bob" { n := 2 ^ 120 + 7, e := 3, d := 3 }
    { n := 2 ^ 120 + 9, e := 3, d := 3 } "B-id"

/-- Mutual friend exchange: A holds B as a Friend and B holds A. -/
def abSetup : Except Err (User × User) := do
  let fb ← userToFriend userB0
  let fa ← userToFriend userA0
  let a1 ← userAddFriend userA0 fb
  let b1 ← userAddFriend userB0 fa
  return (a1, b1)

set_option maxRecDepth 100000 in
/-- C2 (code bug): in the honest end-to-end scenario the friend exchange
and create_message(B, "hello") succeed, but receive_message on the
resulting EncryptedMessage fails inside Friend::verify with an OpenSSL
length error: verify RSA-decrypts the base64 ciphertext text (which is
always longer than the modulus) instead of the signature.  The message
"hello" is never delivered, contradicting the claim. -/
theorem claim_C2 :
    (abSetup.bind (fun ab =>
      (userCreateMessage dgDigest ab.1 "B-id" "hello" (List.replicate 8 170)
          "m-id" 42).bind
        (fun m => userReceiveMessage dgDigest ab.2 m)))
      = .error (.opensslError "data greater than mod len") ∧
    (abSetup.bind (fun ab =>
      userCreateMessage dgDigest ab.1 "B-id" "hello" (List.replicate 8 170)
        "m-id" 42)).isOk = true := by
  refine ⟨by decide, by decide⟩

/-- Tiny user for the Friend exchange round trip; the key sizes are
irrelevant because from_string fails while parsing the keys. -/
def c3User : User :=
  userNew "carol" { n := 3233, e := 17, d := 413 }
    { n := 3233, e := 17, d := 413 } "carol-id"

set_option maxRecDepth 100000 in
/-- C3 (code bug): to_string stores each public key as base64(PEM), but
from_string hands that still-base64-encoded text directly to
public_key_from_pem, which finds no PEM armour and fails with the OpenSSL
no start line error.  Friend::from_string(user.to_friend().to_string())
therefore never succeeds, contradicting the round-trip claim. -/
theorem claim_C3 :
    ((userToFriend c3User).bind friendToString).bind friendFromString
      = .error (.opensslError "no start line") ∧
    ((userToFriend c3User).bind friendToString).isOk = true := by
  refine ⟨by decide, by decide⟩

/-- The tampering operation of claim C4: decode the ciphertext text, flip
the lowest bit of its first byte, and re-encode. -/
def tamperFirstByte (em : EncryptedMessage) : EncryptedMessage :=
  match b64decodeStr em.encContent with
  | .ok (b :: rest) =>
      { em with encContent :=
          b64encodeStr ((if b % 2 = 0 then b + 1 else b - 1) :: rest) }
  | _ => em

set_option maxRecDepth 100000 in
/-- C4 (code bug): receive_message on the tampered EncryptedMessage fails
at the verification step before any decryption and appends nothing (an
error return leaves the user unchanged), but the error is the OpenSSL
length error from RSA-decrypting the ciphertext text, not VerifyError; the
same failure occurs on the untampered message (claim C2), because the
signature is never inspected. -/
theorem claim_C4 :
    (abSetup.bind (fun ab =>
      (userCreateMessage dgDigest ab.1 "B-id" "hello" (List.replicate 8 170)
          "m-id" 42).bind
        (fun m => userReceiveMessage dgDigest ab.2 (tamperFirstByte m))))
      = .error (.opensslError "data greater than mod len") := by
  decide

/-- C6 (confirmed): a KeyPair in Encrypt mode fails decrypt and sign with
the ModeError of the respective capability gate, and a KeyPair in Verify
mode fails sign and decrypt likewise, whatever key material it carries and
whatever the input is. -/
theorem claim_C6 (digest : String → String) (kp : KeyPair) (s : String) :
    (kp.mode = Mode.encrypt →
      kpDecrypt kp s = .error (.modeError "cannot decrypt with non decrypt mode key") ∧
      kpSign digest kp s
        = .error (.modeError "cannot sign with non signing mode key")) ∧
    (kp.mode = Mode.verify →
      kpSign digest kp s
        = .error (.modeError "cannot sign with non signing mode key") ∧
      kpDecrypt kp s
        = .error (.modeError "cannot decrypt with non decrypt mode key")) := by
  constructor <;> intro hmode <;>
    exact ⟨by simp [kpDecrypt, canDecrypt, kpSign, canSign, hmode],
      by simp [kpDecrypt, canDecrypt, kpSign, canSign, hmode]⟩

/-- Encrypt-only key used by several witnesses. -/
def encOnlyKey : KeyPair :=
  { pub := some { n := 3233, e := 17 }, priv := none, mode := .encrypt }

/-- Verify-only key used by several witnesses. -/
def verOnlyKey : KeyPair :=
  { pub := some { n := 3233, e := 17 }, priv := none, mode := .verify }

/-- C6 witness: the mode gates fire on the concrete public-only keys. -/
theorem claim_C6_witness :
    (kpDecrypt encOnlyKey "x"
        = .error (.modeError "cannot decrypt with non decrypt mode key") ∧
      kpSign (fun s => s) encOnlyKey "x"
        = .error (.modeError "cannot sign with non signing mode key")) ∧
    (kpSign (fun s => s) verOnlyKey "x"
        = .error (.modeError "cannot sign with non signing mode key") ∧
      kpDecrypt verOnlyKey "x"
        = .error (.modeError "cannot decrypt with non decrypt mode key")) :=
  ⟨(claim_C6 (fun s => s) encOnlyKey "x").1 rfl,
   (claim_C6 (fun s => s) verOnlyKey "x").2 rfl⟩

/-- The KeyPair invariant of claim C7: public material always present,
private material present exactly for the two full modes. -/
def kpInv (kp : KeyPair) : Prop :=
  kp.pub.isSome = true ∧
    (kp.priv.isSome = true ↔
      (kp.mode = Mode.encryptDecrypt ∨ kp.mode = Mode.verifySign))

/-- C7 counterexample: generate stores both key halves whatever mode is
requested, so generate(Encrypt) yields a KeyPair with private material
present in Encrypt mode, violating the claimed invariant. -/
theorem claim_C7_counterexample :
    (kpGenerate { n := 3233, e := 17, d := 413 } .encrypt).priv.isSome = true ∧
    (kpGenerate { n := 3233, e := 17, d := 413 } .encrypt).mode = Mode.encrypt ∧
    ¬ kpInv (kpGenerate { n := 3233, e := 17, d := 413 } .encrypt) := by
  refine ⟨rfl, rfl, ?_⟩
  intro ⟨_, hiff⟩
  rcases hiff.mp rfl with h | h <;> cases h

/-- C7 (corrected): the invariant holds for every KeyPair produced by
generate restricted to the EncryptDecrypt and VerifySign modes (the only
generate calls the program makes), and for every successful to_public,
to_verify and from_pub_pem. -/
theorem claim_C7_amended :
    (∀ nm : RsaPriv,
      kpInv (kpGenerate nm .encryptDecrypt) ∧ kpInv (kpGenerate nm .verifySign)) ∧
    (∀ kp kp' : KeyPair, kpToPublic kp = .ok kp' → kpInv kp') ∧
    (∀ kp kp' : KeyPair, kpToVerify kp = .ok kp' → kpInv kp') ∧
    (∀ (s : String) (mode : Mode) (kp' : KeyPair),
      kpFromPubPem s mode = .ok kp' → kpInv kp') := by
  refine ⟨?_, ?_, ?_, ?_⟩
  · intro nm
    exact ⟨⟨rfl, by simp [kpGenerate]⟩, ⟨rfl, by simp [kpGenerate]⟩⟩
  · intro kp kp' h
    cases hc : canEncrypt kp with
    | error e => rw [kpToPublic, hc] at h; cases h
    | ok key =>
      rw [kpToPublic, hc] at h
      cases h
      exact ⟨rfl, by simp⟩
  · intro kp kp' h
    cases hc : canVerify kp with
    | error e => rw [kpToVerify, hc] at h; cases h
    | ok key =>
      rw [kpToVerify, hc] at h
      cases h
      exact ⟨rfl, by simp⟩
  · intro s mode kp' h
    cases mode with
    | encryptDecrypt => cases h
    | verifySign => cases h
    | encrypt =>
      cases hc : pemParsePub s with
      | error e =>
        rw [kpFromPubPem, hc] at h
        · cases h
        · intro hcon; cases hcon
        · intro hcon; cases hcon
      | ok key =>
        rw [kpFromPubPem, hc] at h
        · cases h
          exact ⟨rfl, by simp⟩
        · intro hcon; cases hcon
        · intro hcon; cases hcon
    | verify =>
      cases hc : pemParsePub s with
      | error e =>
        rw [kpFromPubPem, hc] at h
        · cases h
        · intro hcon; cases hcon
        · intro hcon; cases hcon
      | ok key =>
        rw [kpFromPubPem, hc] at h
        · cases h
          exact ⟨rfl, by simp⟩
        · intro hcon; cases hcon
        · intro hcon; cases hcon

set_option maxRecDepth 100000 in
/-- C7 witness: the amended invariant at concrete keys, including a
successful from_pub_pem on a generated PEM text. -/
theorem claim_C7_witness :
    kpInv (kpGenerate { n := 3233, e := 17, d := 413 } .encryptDecrypt) ∧
    kpInv { pub := some { n := 3233, e := 17 }, priv := none, mode := Mode.encrypt } ∧
    kpInv { pub := some { n := 3233, e := 17 }, priv := none, mode := Mode.verify } :=
  ⟨(claim_C7_amended.1 { n := 3233, e := 17, d := 413 }).1,
   claim_C7_amended.2.1 (kpGenerate { n := 3233, e := 17, d := 413 } .encryptDecrypt)
     _ (by decide),
   claim_C7_amended.2.2.2 (pemEncodePub { n := 3233, e := 17 }) Mode.verify
     _ (by decide)⟩

/-- C8 (confirmed): for every user and every EncryptedMessage whose
target_id differs from the user id, receive_message fails with
UnknownMessage; the check is the first statement of the function, so the
error return is the unchanged user state. -/
theorem claim_C8 (digest : String → String) (u : User) (em : EncryptedMessage)
    (h : em.targetId ≠ u.id) :
    userReceiveMessage digest u em
      = .error (.unknownMessage "received message for another id") := by
  rw [userReceiveMessage, if_pos h]

/-- C8 witness: a concrete misaddressed message is rejected. -/
theorem claim_C8_witness :
    userReceiveMessage dgDigest c3User
      { id := "m", sourceId := "s", targetId := "someone-else",
        encContent := "zz", createdAt := 7, sig := "ss" }
      = .error (.unknownMessage "received message for another id") :=
  claim_C8 dgDigest c3User _ (by decide)

/-- C9 (confirmed): add_friend rejects a Friend whose id is already bound,
leaving the map untouched (the error return precedes any insertion), and
otherwise inserts the Friend under its id. -/
theorem claim_C9 (u : User) (f : Friend) :
    ((lookupAssoc u.friends f.id).isSome = true →
      userAddFriend u f = .error (.duplicateFriend "duplicate friend added")) ∧
    ((lookupAssoc u.friends f.id).isSome = false →
      userAddFriend u f = .ok { u with friends := insertAssoc u.friends f.id f } ∧
      lookupAssoc (insertAssoc u.friends f.id f) f.id = some f) := by
  constructor
  · intro h
    rw [userAddFriend, if_pos h]
  · intro h
    refine ⟨?_, lookupAssoc_insertAssoc_self u.friends f.id f⟩
    rw [userAddFriend, if_neg (by rw [h]; exact Bool.false_ne_true)]

/-- Friend value used by the C9 witness. -/
def exFriendX : Friend :=
  { id := "x", nickname := "X", encKey := encOnlyKey, sigKey := verOnlyKey,
    messages := [] }

/-- User already holding exFriendX, used by the C9 witness. -/
def uDup : User := { c3User with friends := [("x", exFriendX)] }

/-- C9 witness: the duplicate branch fires on uDup and the insert branch
fires on the fresh c3User. -/
theorem claim_C9_witness :
    userAddFriend uDup exFriendX
      = .error (.duplicateFriend "duplicate friend added") ∧
    (userAddFriend c3User exFriendX
      = .ok { c3User with friends := insertAssoc c3User.friends "x" exFriendX } ∧
     lookupAssoc (insertAssoc c3User.friends "x" exFriendX) "x" = some exFriendX) :=
  ⟨(claim_C9 uDup exFriendX).1 (by decide),
   (claim_C9 c3User exFriendX).2 (by decide)⟩

/-- C10 (confirmed): for every KeyPair with verify capability, the outcome
of verify(M, s) is the same for all signature strings s: the source never
reads the sig parameter, so the two calls are definitionally equal. -/
theorem claim_C10 (digest : String → String) (kp : KeyPair) (m s1 s2 : String)
    (hmode : kp.mode = Mode.verify ∨ kp.mode = Mode.verifySign) :
    kpVerify digest kp m s1 = kpVerify digest kp m s2 := rfl

/-- C10 witness: two different signatures give the same verify outcome on
the concrete verify-only key. -/
theorem claim_C10_witness :
    kpVerify (fun x => x) verOnlyKey "m" "sig-one"
      = kpVerify (fun x => x) verOnlyKey "m" "sig-two" :=
  claim_C10 (fun x => x) verOnlyKey "m" "sig-one" "sig-two" (Or.inl rfl)
